import Mathlib

/-!
Shallow embedding of the flappy-multi server variants and proofs of the
specification claims.

Namespace `P1` embeds the static-course server in `src/unnamed/part_001`
(constants, `makeCourse`, `resetPlayersForRound`, `resetToLobby`,
`startCountdown`, `startPlaying`, `onCrash`, `stepRoom`, the message
handlers and `joinRoom`).

Namespace `SJ` embeds the second document inside `src/server.js`
(the variant with the guarded game-over timer, the validated join
handler and the restart-from-gameover handler).

JavaScript numbers are modelled as rationals (`ℚ`); the arithmetic the
server performs on positions, velocities and pipe geometry is exact at
these magnitudes.  `Date.now()` timestamps are modelled as `Nat`
milliseconds.  The per-player `_scored` JavaScript `Set` is a
`Finset Nat` of pipe sequence numbers.  `Math.random()` is modelled as
an explicit stream `r : Nat → ℚ` of draws with `0 ≤ r i < 1`.
-/

namespace P1

/-- Game constants of `src/unnamed/part_001`, lines 9-36. -/
def VIEW_W : ℚ := 1920

def VIEW_H : ℚ := 1080

def GRAVITY : ℚ := 1/2

def FLAP_VY : ℚ := -9

def RUN_SPEED : ℚ := 21/5

def BIRD_RADIUS : ℚ := 14

def GROUND_H : ℚ := 100

def PIPE_GAP : ℚ := 210

def PIPE_HALF_W : ℚ := 40

def PIPE_SPACING : ℚ := 520

def COURSE_MARGIN_X : ℚ := 600

def FINISH_PIPES : Nat := 15

def FINISH_PAD_X : ℚ := 600

def MIN_PLAYERS : Nat := 2

def COUNTDOWN_SECONDS : Nat := 3

def LOBBY_READY_REQUIRED : Bool := true

def MIN_FLAP_INTERVAL_MS : Nat := 120

/-- One pipe of a course: `{ id, x, top, bottom, seq }` (the uuid `id` is
not simulation-relevant and is omitted). -/
structure Pipe where
  x : ℚ
  top : ℚ
  bottom : ℚ
  seq : Nat
deriving DecidableEq, Repr

/-- A course: `{ pipes, startX, finishX }`. -/
structure Course where
  pipes : List Pipe
  startX : ℚ
  finishX : ℚ
deriving DecidableEq, Repr

/-- Room lifecycle states. -/
inductive RState where
  | lobby
  | countdown
  | playing
  | gameover
deriving DecidableEq, Repr

/-- A player: `{ x, y, vy, name, ready, spectator, lastFlapAt, progress,
respawnAt, _scored }`. -/
structure Player where
  x : ℚ
  y : ℚ
  vy : ℚ
  name : String
  ready : Bool
  spectator : Bool
  lastFlapAt : Nat
  progress : Nat
  respawnAt : Nat
  scored : Finset Nat
deriving DecidableEq

/-- A room; `players` is an insertion-ordered id-keyed map, modelled as an
association list. -/
structure Room where
  state : RState
  course : Option Course
  players : List (String × Player)
  countdownEndsAt : Option Nat
  winnerId : Option String
deriving DecidableEq

/-- `makeRoom`: the fresh room inserted into the registry. -/
def initRoom : Room :=
  { state := .lobby
    course := none
    players := []
    countdownEndsAt := none
    winnerId := none }

/-- `makeCourse` (part_001 lines 63-78); `r` is the stream of
`Math.random()` draws, one per pipe. -/
def makeCourse (r : Nat → ℚ) : Course :=
  let startX : ℚ := 0
  let firstPipeX := startX + COURSE_MARGIN_X
  let marginY : ℚ := 200
  let pipes := (List.range FINISH_PIPES).map (fun (i : Nat) =>
    let x := firstPipeX + (i : ℚ) * PIPE_SPACING
    let gapCenter := marginY + r i * (VIEW_H - GROUND_H - marginY * 2)
    { x := x
      top := gapCenter - PIPE_GAP / 2
      bottom := gapCenter + PIPE_GAP / 2
      seq := i : Pipe })
  let lastPipeX := (match pipes.getLast? with
    | some p => p.x
    | none => 0)
  { pipes := pipes, startX := startX, finishX := lastPipeX + FINISH_PAD_X }

/-- `resetPlayersForRound` applied to one player (part_001 lines 80-92).
Note the source does not touch `_scored` here. -/
def resetPlayerForRound (course : Course) (midRound : Bool) (p : Player) : Player :=
  let p := { p with
    x := course.startX + 80
    y := VIEW_H / 2
    vy := 0
    progress := 0
    respawnAt := 0 }
  if midRound then p else { p with ready := false, spectator := false }

/-- `resetToLobby` (part_001 lines 94-101). -/
def resetToLobby (room : Room) : Room :=
  { room with
    state := .lobby
    countdownEndsAt := none
    winnerId := none
    course := none
    players := room.players.map (fun e =>
      (e.1, { e.2 with ready := false, spectator := false })) }

/-- `startCountdown` (part_001 lines 103-106). -/
def startCountdown (now : Nat) (room : Room) : Room :=
  { room with
    state := .countdown
    countdownEndsAt := some (now + COUNTDOWN_SECONDS * 1000) }

/-- `startPlaying` (part_001 lines 108-113). -/
def startPlaying (r : Nat → ℚ) (room : Room) : Room :=
  let course := makeCourse r
  { room with
    state := .playing
    winnerId := none
    course := some course
    players := room.players.map (fun e =>
      (e.1, resetPlayerForRound course true e.2)) }

/-- `eligiblePlayers` (part_001 lines 115-117). -/
def eligiblePlayers (room : Room) : List Player :=
  (room.players.map Prod.snd).filter (fun p => !p.spectator)

/-- `canStartCountdown` (part_001 lines 118-123). -/
def canStartCountdown (room : Room) : Bool :=
  let cand := eligiblePlayers room
  if cand.length < MIN_PLAYERS then false
  else if !LOBBY_READY_REQUIRED then true
  else cand.all (fun p => p.ready)

/-- `onCrash` (part_001 lines 125-132): respawns only this player; the
source leaves `_scored` untouched. -/
def onCrash (course : Course) (p : Player) : Player :=
  { p with
    x := course.startX + 80
    y := VIEW_H / 2
    vy := 0
    progress := 0
    respawnAt := 0 }

/-- The ground line `groundY = VIEW_H - GROUND_H`. -/
def groundY : ℚ := VIEW_H - GROUND_H

/-- Horizontal advance plus semi-implicit Euler vertical integration
(part_001 lines 144-149): `vy += GRAVITY` before `y += vy`. -/
def movePlayer (p : Player) : Player :=
  { p with
    x := p.x + RUN_SPEED
    vy := p.vy + GRAVITY
    y := p.y + (p.vy + GRAVITY) }

/-- Top clamp (part_001 line 152). -/
def clampTop (p : Player) : Player :=
  if p.y < BIRD_RADIUS then { p with y := BIRD_RADIUS, vy := 0 } else p

/-- Ground-band crash test (part_001 line 153). -/
def groundCrashed (p : Player) : Bool :=
  decide (p.y > groundY - BIRD_RADIUS)

/-- Pipe collision test (part_001 lines 161-163): in the horizontal
window of the pipe and outside its gap. -/
def collide (p : Player) (pipe : Pipe) : Bool :=
  (decide (pipe.x - PIPE_HALF_W ≤ p.x) && decide (p.x ≤ pipe.x + PIPE_HALF_W)) &&
  (decide (p.y - BIRD_RADIUS < pipe.top) || decide (p.y + BIRD_RADIUS > pipe.bottom))

/-- Scoring of one pipe (part_001 lines 168-173): first passage of the
trailing edge with an unscored `seq` adds the `seq` and increments
`progress`. -/
def scorePipe (pipe : Pipe) (p : Player) : Player :=
  if pipe.seq ∉ p.scored ∧ pipe.x + PIPE_HALF_W < p.x then
    { p with scored := insert pipe.seq p.scored, progress := p.progress + 1 }
  else p

/-- The per-player pipe loop (part_001 lines 159-174): collision breaks
out (after `onCrash`), otherwise each pipe may score.  Returns the
updated player and whether a pipe crash happened. -/
def pipeLoop (course : Course) : List Pipe → Player → Player × Bool
  | [], p => (p, false)
  | pipe :: rest, p =>
    if collide p pipe then (onCrash course p, true)
    else pipeLoop course rest (scorePipe pipe p)

/-- The finish check (part_001 lines 176-181): with no winner recorded,
required progress reached and the finish line reached, this player wins
and the room goes to `gameover`. -/
def finishCheck (course : Course) (id : String) (winner : Option String)
    (st : RState) (p : Player) : Option String × RState :=
  if winner = none ∧ FINISH_PIPES ≤ p.progress ∧ course.finishX ≤ p.x then
    (some id, .gameover)
  else (winner, st)

/-- One playing-state player update (part_001 lines 141-182): spectators
are skipped; ground crash respawns and skips pipes and finish; otherwise
pipes then the finish check. -/
def stepPlayer (course : Course) (winner : Option String) (st : RState)
    (id : String) (p : Player) : Player × Option String × RState :=
  if p.spectator then (p, winner, st)
  else
    let p1 := clampTop (movePlayer p)
    if groundCrashed p1 then (onCrash course p1, winner, st)
    else
      let p2 := (pipeLoop course course.pipes p1).1
      let ws := finishCheck course id winner st p2
      (p2, ws.1, ws.2)

/-- The playing-state loop over the player map, threading the winner and
state mutations in iteration order. -/
def stepPlayers (course : Course) :
    List (String × Player) → Option String → RState →
    List (String × Player) × Option String × RState
  | [], w, st => ([], w, st)
  | (id, p) :: rest, w, st =>
    let r1 := stepPlayer course w st id p
    let r2 := stepPlayers course rest r1.2.1 r1.2.2
    ((id, r1.1) :: r2.1, r2.2.1, r2.2.2)

/-- The countdown-expiry test `Date.now() >= room.countdownEndsAt`
(part_001 line 136); a JavaScript `null` deadline coerces to `0`. -/
def countdownExpired (now : Nat) (room : Room) : Bool :=
  match room.countdownEndsAt with
  | some d => decide (d ≤ now)
  | none => true

/-- `stepRoom` (part_001 lines 134-183). -/
def stepRoom (now : Nat) (r : Nat → ℚ) (room : Room) : Room :=
  let room :=
    if room.state = .lobby ∧ canStartCountdown room then startCountdown now room
    else room
  let room :=
    if room.state = .countdown ∧ countdownExpired now room then startPlaying r room
    else room
  if room.state ≠ .playing then room
  else
    match room.course with
    | none => room
    | some course =>
      let res := stepPlayers course room.players room.winnerId room.state
      { room with players := res.1, winnerId := res.2.1, state := res.2.2 }

/-- `joinRoom` at room level (part_001 lines 220-251).  An empty `name`
silently defaults to `"Player"`; the new player spectates iff the room
is mid-round. -/
def joinRoom (room : Room) (id : String) (name : String) : Room :=
  let joiningDuringRound := room.state = .playing
  let p : Player :=
    { name := (if name = "" then "Player" else name).take 16
      x := 0, y := 0, vy := 0
      ready := false
      spectator := joiningDuringRound
      lastFlapAt := 0
      progress := 0
      respawnAt := 0
      scored := ∅ }
  let p :=
    match room.course with
    | some course => { p with x := course.startX + 80, y := VIEW_H / 2 }
    | none => p
  { room with players := room.players ++ [(id, p)] }

/-- Player removal on socket close (part_001 lines 253-258), room level. -/
def removePlayer (room : Room) (id : String) : Room :=
  { room with players := room.players.filter (fun e => e.1 ≠ id) }

/-- Update one player in the association list. -/
def updatePlayer (room : Room) (id : String) (f : Player → Player) : Room :=
  { room with players := room.players.map (fun e =>
      if e.1 = id then (e.1, f e.2) else e) }

/-- The `ready` message handler (part_001 lines 275-277). -/
def readyMsg (room : Room) (id : String) (b : Bool) : Room :=
  updatePlayer room id (fun p =>
    if room.state = .lobby ∧ !p.spectator then { p with ready := b } else p)

/-- The rate-limit body of the `flap` handler (part_001 lines 279-283),
acting on one player. -/
def applyFlap (now : Nat) (p : Player) : Player :=
  if MIN_FLAP_INTERVAL_MS ≤ now - p.lastFlapAt then
    { p with vy := FLAP_VY, lastFlapAt := now }
  else p

/-- The `flap` message handler (part_001 lines 278-284). -/
def flapMsg (room : Room) (id : String) (now : Nat) : Room :=
  updatePlayer room id (fun p =>
    if room.state = .playing ∧ !p.spectator then applyFlap now p else p)

/-- The `restart` message handler (part_001 lines 285-287). -/
def restartMsg (room : Room) : Room :=
  resetToLobby room

/-- The game-over display timer callback (part_001 line 180): an
unconditional `resetToLobby` on the captured room. -/
def timerCallback (room : Room) : Room :=
  resetToLobby room

/-- The room invariant: the course is non-null iff the state is
`playing` or `gameover`. -/
def Inv (room : Room) : Prop :=
  room.course ≠ none ↔ (room.state = .playing ∨ room.state = .gameover)

end P1

namespace SJ

/-- Constants of the second document inside `src/server.js`
(lines 339-355). -/
def VIEW_H : ℚ := 1080

def MIN_PLAYERS : Nat := 2

def COUNTDOWN_SECONDS : Nat := 3

def MIN_FLAP_INTERVAL_MS : Nat := 120

/-- A course as returned by this variant's `makeCourse` (line 372):
`{ pipes, finishX, pipeHalfW, finishPipes }`; pipes have the same shape
as in `P1`. -/
structure Course where
  pipes : List P1.Pipe
  finishX : ℚ
  pipeHalfW : ℚ
  finishPipes : Nat
deriving DecidableEq

/-- A player of this variant (lines 500-508). -/
structure Player where
  name : String
  x : ℚ
  y : ℚ
  vy : ℚ
  ready : Bool
  spectator : Bool
  lastFlapAt : Nat
  progress : Nat
  scored : Finset Nat
deriving DecidableEq

/-- A room of this variant (lines 375-383). -/
structure Room where
  state : P1.RState
  players : List (String × Player)
  course : Option Course
  countdownEndsAt : Option Nat
  winnerId : Option String
deriving DecidableEq

/-- `makeRoom` (lines 375-383): the fresh room. -/
def initRoom : Room :=
  { state := .lobby
    players := []
    course := none
    countdownEndsAt := none
    winnerId := none }

/-- `resetToLobby` (lines 385-395): also zeroes `progress`. -/
def resetToLobby (room : Room) : Room :=
  { room with
    state := .lobby
    course := none
    winnerId := none
    countdownEndsAt := none
    players := room.players.map (fun e =>
      (e.1, { e.2 with ready := false, spectator := false, progress := 0 })) }

/-- `startCountdown` (lines 397-400). -/
def startCountdown (now : Nat) (room : Room) : Room :=
  { room with
    state := .countdown
    countdownEndsAt := some (now + COUNTDOWN_SECONDS * 1000) }

/-- `canStart` (lines 417-421). -/
def canStart (room : Room) : Bool :=
  let elig := (room.players.map Prod.snd).filter (fun p => !p.spectator)
  if elig.length < MIN_PLAYERS then false
  else elig.all (fun p => p.ready)

/-- The `restart` message handler (lines 594-599): honoured only from
`gameover`, and only when `canStart`; it calls `startCountdown` and
nothing else — in particular it does not clear `course`. -/
def restartMsg (now : Nat) (room : Room) : Room :=
  if room.state = .gameover ∧ canStart room then startCountdown now room
  else room

/-- `joinRoom` at room level (lines 495-519). -/
def joinRoom (room : Room) (id : String) (name : String) : Room :=
  let joiningDuringRound := room.state = .playing
  let p : Player :=
    { name := (if name = "" then "Player" else name).take 16
      x := 80, y := VIEW_H / 2, vy := 0
      ready := false
      spectator := joiningDuringRound
      lastFlapAt := 0
      progress := 0
      scored := ∅ }
  { room with players := room.players ++ [(id, p)] }

/-- A JavaScript value as far as the join validation inspects it. -/
inductive JVal where
  | undef
  | vstr (s : String)
  | vnum (q : ℚ)
  | vbool (b : Bool)
deriving DecidableEq

/-- JavaScript truthiness of a `JVal`. -/
def truthy : JVal → Bool
  | .undef => false
  | .vstr s => s ≠ ""
  | .vnum q => q ≠ 0
  | .vbool b => b

/-- `typeof v === 'string'`. -/
def isStr : JVal → Bool
  | .vstr _ => true
  | _ => false

/-- The string payload of a `JVal` (only read after validation). -/
def strVal : JVal → String
  | .vstr s => s
  | _ => ""

/-- The join branch of the message handler (lines 553-563):
`!msg.name || typeof msg.name !== 'string'` sends an explicit error and
creates nothing; otherwise `joinRoom` runs. -/
def handleJoinMsg (room : Room) (id : String) (name : JVal) :
    Except String Room :=
  if !truthy name || !isStr name then .error "Invalid player name"
  else .ok (joinRoom room id (strVal name))

/-- A JavaScript `Map` key: the registry maps room-id strings to rooms,
but `Map.has` may be queried with any value, including a room object
(modelled by an object reference). -/
inductive JKey where
  | str (s : String)
  | obj (ref : Nat)
deriving DecidableEq

/-- The room registry: insertion-ordered key-value pairs. -/
def Registry := List (JKey × Room)

/-- `rooms.has(k)`. -/
def mapHas (reg : List (JKey × Room)) (k : JKey) : Bool :=
  reg.any (fun e => e.1 = k)

/-- `makeRoom(roomId)` at registry level (lines 375-383,496): always
inserts under a string key. -/
def registryMakeRoom (reg : List (JKey × Room)) (roomId : String) :
    List (JKey × Room) :=
  reg ++ [(.str roomId, initRoom)]

/-- All registry keys are strings (every insertion site uses a room-id
string as the key). -/
def StrKeyed (reg : List (JKey × Room)) : Prop :=
  ∀ e ∈ reg, ∃ s, e.1 = JKey.str s

/-- The game-over display timer callback (lines 465-470):
`if (rooms.has(room) && room.state === 'gameover') resetToLobby(room)`.
The query key is the value the source passes to `rooms.has` — the
captured room itself, an object reference, not its id string. -/
def timerCallback (reg : List (JKey × Room)) (queryKey : JKey)
    (room : Room) : Room :=
  if mapHas reg queryKey ∧ room.state = .gameover then resetToLobby room
  else room

/-- The room invariant, for this variant. -/
def Inv (room : Room) : Prop :=
  room.course ≠ none ↔ (room.state = .playing ∨ room.state = .gameover)

end SJ

/-! Concrete inputs used by witnesses and counterexamples. -/

namespace Ex

/-- A fixed random stream: every draw is `1/2`. -/
def halfStream : Nat → ℚ := fun _ => 1/2

/-- A single pipe at `x = 600` with gap `[200, 410]`. -/
def pipeA : P1.Pipe :=
  { x := 600, top := 200, bottom := 410, seq := 0 }

/-- A second pipe at `x = 1120`. -/
def pipeB : P1.Pipe :=
  { x := 1120, top := 300, bottom := 510, seq := 1 }

/-- A one-pipe course. -/
def courseA : P1.Course :=
  { pipes := [pipeA], startX := 0, finishX := 1240 }

/-- A two-pipe course. -/
def courseB : P1.Course :=
  { pipes := [pipeA, pipeB], startX := 0, finishX := 1760 }

/-- A player who has scored pipe `0` and then crashes. -/
def crasherA : P1.Player :=
  { x := 700, y := 540, vy := 0, name := "A", ready := false
    spectator := false, lastFlapAt := 0, progress := 1, respawnAt := 0
    scored := {0} }

/-- `crasherA` after the crash, later in the same round, having re-run
past pipe `0`'s trailing edge again. -/
def respawnA : P1.Player :=
  { P1.onCrash courseA crasherA with x := 700 }

/-- A mid-gap runner past pipe `0`'s trailing edge, nothing scored yet. -/
def runnerB : P1.Player :=
  { x := 700, y := 540, vy := 0, name := "B", ready := false
    spectator := false, lastFlapAt := 0, progress := 0, respawnAt := 0
    scored := ∅ }

/-- A player one obstacle short of the required count, past the finish
line. -/
def almostP : P1.Player :=
  { x := 1300, y := 540, vy := 0, name := "C", ready := false
    spectator := false, lastFlapAt := 0, progress := 14, respawnAt := 0
    scored := ∅ }

/-- A not-ready eligible player waiting in a countdown room. -/
def unreadyP : P1.Player :=
  { x := 0, y := 540, vy := 0, name := "D", ready := false
    spectator := false, lastFlapAt := 0, progress := 0, respawnAt := 0
    scored := ∅ }

/-- A `part_001` room in `countdown` whose deadline has passed and whose
single player has meanwhile un-readied. -/
def countdownRoomP1 : P1.Room :=
  { state := .countdown
    course := none
    players := [("D", unreadyP)]
    countdownEndsAt := some 5000
    winnerId := none }

/-- A `part_001` room in `gameover` with a recorded winner. -/
def gameoverRoomP1 : P1.Room :=
  { state := .gameover
    course := some courseA
    players := [("A", crasherA)]
    countdownEndsAt := none
    winnerId := some "A" }

/-- A ready eligible `server.js` player. -/
def readySJ (nm : String) : SJ.Player :=
  { name := nm, x := 80, y := 540, vy := 0, ready := true
    spectator := false, lastFlapAt := 0, progress := 15, scored := ∅ }

/-- A `server.js` course left over from a finished round. -/
def courseSJ : SJ.Course :=
  { pipes := [pipeA], finishX := 1240, pipeHalfW := 40, finishPipes := 15 }

/-- A `server.js` room in `gameover`, with its course still present and
two ready eligible players, so `canStart` holds. -/
def gameRoomSJ : SJ.Room :=
  { state := .gameover
    players := [("A", readySJ "A"), ("B", readySJ "B")]
    course := some courseSJ
    countdownEndsAt := none
    winnerId := some "A" }

/-- A player whose last accepted flap is at time `0`. -/
def flapperP : P1.Player :=
  { x := 300, y := 540, vy := 5, name := "F", ready := false
    spectator := false, lastFlapAt := 0, progress := 0, respawnAt := 0
    scored := ∅ }

end Ex

/-- The sequence numbers of the pipes (from a given list) whose trailing
edge `x + PIPE_HALF_W` lies strictly behind the player's x. -/
def passedSeqs (p : P1.Player) (pipes : List P1.Pipe) : Finset Nat :=
  ((pipes.filter (fun q => q.x + P1.PIPE_HALF_W < p.x)).map P1.Pipe.seq).toFinset

/-! ## Helper lemmas -/

/-- Once a winner is recorded, one player step never changes it (nor the
state): the finish branch is guarded by `!room.winnerId`. -/
theorem stepPlayer_winner_some (c : P1.Course) (v : String) (st : P1.RState)
    (id : String) (p : P1.Player) :
    (P1.stepPlayer c (some v) st id p).2 = (some v, st) := by
  unfold P1.stepPlayer
  by_cases hs : p.spectator
  · simp [hs]
  · simp only [hs, if_false, Bool.false_eq_true]
    by_cases hg : P1.groundCrashed (P1.clampTop (P1.movePlayer p)) = true
    · simp [hg]
    · simp only [hg, if_false, Bool.false_eq_true, P1.finishCheck]
      simp

/-- Once a winner is recorded, the rest of the tick's player loop keeps
it (and the state). -/
theorem stepPlayers_winner_some (c : P1.Course) (v : String) :
    ∀ (ps : List (String × P1.Player)) (st : P1.RState),
      (P1.stepPlayers c ps (some v) st).2 = (some v, st) := by
  intro ps
  induction ps with
  | nil => intro st; rfl
  | cons e rest ih =>
    intro st
    simp only [P1.stepPlayers, stepPlayer_winner_some]
    exact ih st

/-- One player step leaves the state unchanged or moves it to
`gameover`. -/
theorem stepPlayer_state_or (c : P1.Course) (w : Option String)
    (st : P1.RState) (id : String) (p : P1.Player) :
    (P1.stepPlayer c w st id p).2.2 = st ∨
    (P1.stepPlayer c w st id p).2.2 = .gameover := by
  unfold P1.stepPlayer
  by_cases hs : p.spectator
  · simp [hs]
  · simp only [hs, if_false, Bool.false_eq_true]
    by_cases hg : P1.groundCrashed (P1.clampTop (P1.movePlayer p)) = true
    · simp [hg]
    · simp only [hg, if_false, Bool.false_eq_true, P1.finishCheck]
      by_cases hw : w = none ∧ P1.FINISH_PIPES ≤ (P1.pipeLoop c c.pipes (P1.clampTop (P1.movePlayer p))).1.progress ∧ c.finishX ≤ (P1.pipeLoop c c.pipes (P1.clampTop (P1.movePlayer p))).1.x
      · simp [hw]
      · simp [hw]

/-- The player loop leaves the state unchanged or moves it to
`gameover`. -/
theorem stepPlayers_state_or (c : P1.Course) :
    ∀ (ps : List (String × P1.Player)) (w : Option String) (st : P1.RState),
      (P1.stepPlayers c ps w st).2.2 = st ∨
      (P1.stepPlayers c ps w st).2.2 = .gameover := by
  intro ps
  induction ps with
  | nil => intro w st; left; rfl
  | cons e rest ih =>
    intro w st
    simp only [P1.stepPlayers]
    rcases stepPlayer_state_or c w st e.1 e.2 with h | h
    · rw [h] at *
      exact ih _ st
    · rw [h] at *
      rcases ih (P1.stepPlayer c w st e.1 e.2).2.1 .gameover with h2 | h2
      · right; exact h2
      · right; exact h2

/-! ## Claims -/

/-- Claim C2: at most one `winnerId` per round.  During `playing` or
`gameover` a tick never changes an already-recorded winner; within one
tick, once the loop has recorded a winner the remaining players cannot
overwrite it; only the lobby reset clears it. -/
theorem winner_unique (room : P1.Room) (now : Nat) (r : Nat → ℚ)
    (v : String) (c : P1.Course) (ps : List (String × P1.Player))
    (st : P1.RState)
    (hst : room.state = .playing ∨ room.state = .gameover)
    (hw : room.winnerId = some v) :
    (P1.stepRoom now r room).winnerId = some v ∧
    (P1.stepPlayers c ps (some v) st).2.1 = some v ∧
    (P1.resetToLobby room).winnerId = none := by
  refine ⟨?_, ?_, rfl⟩
  · rcases hst with h | h
    · cases hc : room.course with
      | none => simp [P1.stepRoom, h, hc, hw]
      | some c0 =>
        have hsp := stepPlayers_winner_some c0 v room.players P1.RState.playing
        simp [P1.stepRoom, h, hc, hw, hsp]
    · simp [P1.stepRoom, h, hw]
  · have := stepPlayers_winner_some c v ps st
    simp [this]

/-- Witness for C2 at a concrete game-over room with winner `"A"`. -/
theorem winner_unique_witness :
    (P1.stepRoom 9000 Ex.halfStream Ex.gameoverRoomP1).winnerId = some "A" ∧
    (P1.resetToLobby Ex.gameoverRoomP1).winnerId = none :=
  ⟨(winner_unique Ex.gameoverRoomP1 9000 Ex.halfStream "A" Ex.courseA [] .playing
      (Or.inr rfl) rfl).1,
   (winner_unique Ex.gameoverRoomP1 9000 Ex.halfStream "A" Ex.courseA [] .playing
      (Or.inr rfl) rfl).2.2⟩

/-- Claim C4 (failing evaluation): in `part_001`, `onCrash` zeroes
`progress` but leaves the scored-set untouched, so the respawned player
re-passing pipe `0`'s trailing edge can never re-score it: the claim's
"scored-set cleared" is false in this variant. -/
theorem crash_keeps_scored :
    (P1.onCrash Ex.courseA Ex.crasherA).progress = 0 ∧
    (P1.onCrash Ex.courseA Ex.crasherA).x = Ex.courseA.startX + 80 ∧
    (P1.onCrash Ex.courseA Ex.crasherA).vy = 0 ∧
    (P1.onCrash Ex.courseA Ex.crasherA).scored = Ex.crasherA.scored ∧
    Ex.crasherA.scored = {0} ∧
    Ex.pipeA.x + P1.PIPE_HALF_W < Ex.respawnA.x ∧
    P1.scorePipe Ex.pipeA Ex.respawnA = Ex.respawnA := by
  refine ⟨rfl, rfl, rfl, rfl, rfl, ?_, ?_⟩
  · show (600 : ℚ) + 40 < 700
    norm_num
  · simp [P1.scorePipe, Ex.respawnA, P1.onCrash, Ex.crasherA, Ex.pipeA]

/-- Claim C6 (failing behaviour): in the `src/server.js` variant the
game-over timer guard re-checks existence with `rooms.has(room)`, but
the registry is keyed by room-id strings while `room` is the captured
room object, so the guard is always false and `resetToLobby` never
runs: the room never auto-reverts to `lobby`. -/
theorem timer_never_resets (reg : List (SJ.JKey × SJ.Room)) (n : Nat)
    (room : SJ.Room) (hk : SJ.StrKeyed reg) :
    SJ.timerCallback reg (SJ.JKey.obj n) room = room ∧
    (SJ.timerCallback reg (SJ.JKey.obj n) room).state = room.state := by
  have hhas : SJ.mapHas reg (SJ.JKey.obj n) = false := by
    unfold SJ.mapHas
    rw [List.any_eq_false]
    intro e he
    obtain ⟨s, hs⟩ := hk e he
    simp [hs]
  have hcb : SJ.timerCallback reg (SJ.JKey.obj n) room = room := by
    unfold SJ.timerCallback
    simp [hhas]
  exact ⟨hcb, by rw [hcb]⟩

/-- Witness for the C6 theorem: a live registry holding room id
`"lobby"`, and a room frozen in `gameover` that the timer leaves in
`gameover`. -/
theorem timer_never_resets_witness :
    SJ.timerCallback (SJ.registryMakeRoom [] "lobby") (SJ.JKey.obj 0)
      Ex.gameRoomSJ = Ex.gameRoomSJ ∧
    Ex.gameRoomSJ.state = .gameover :=
  ⟨(timer_never_resets (SJ.registryMakeRoom [] "lobby") 0 Ex.gameRoomSJ
      (fun e he => by
        simp only [SJ.registryMakeRoom, List.nil_append,
          List.mem_singleton] at he
        exact ⟨"lobby", by rw [he]⟩)).1,
   rfl⟩

/-- Claim C7: an accepted flap overwrites the vertical velocity with
`FLAP_VY` (not additively) and stamps the flap time; a second flap less
than `MIN_FLAP_INTERVAL_MS` after the accepted one is silently dropped,
so two flaps within the interval cause exactly one velocity change; and
outside `playing` the handler changes nothing. -/
theorem flap_rate_limited (p : P1.Player) (now1 now2 : Nat)
    (h1 : P1.MIN_FLAP_INTERVAL_MS ≤ now1 - p.lastFlapAt)
    (h2 : now2 - now1 < P1.MIN_FLAP_INTERVAL_MS) :
    (P1.applyFlap now1 p).vy = P1.FLAP_VY ∧
    (P1.applyFlap now1 p).lastFlapAt = now1 ∧
    P1.applyFlap now2 (P1.applyFlap now1 p) = P1.applyFlap now1 p ∧
    (∀ (room : P1.Room) (id : String) (t : Nat),
      room.state ≠ .playing → P1.flapMsg room id t = room) := by
  have hacc : P1.applyFlap now1 p =
      { p with vy := P1.FLAP_VY, lastFlapAt := now1 } := by
    unfold P1.applyFlap
    rw [if_pos h1]
  have hrej : ¬ P1.MIN_FLAP_INTERVAL_MS ≤ now2 - now1 := by omega
  refine ⟨by rw [hacc], by rw [hacc], ?_, ?_⟩
  · rw [hacc]
    unfold P1.applyFlap
    rw [if_neg]
    simpa using hrej
  · intro room id t hst
    unfold P1.flapMsg P1.updatePlayer
    have hmap : room.players.map (fun e =>
        if e.1 = id then
          (e.1, if room.state = .playing ∧ !e.2.spectator
                then P1.applyFlap t e.2 else e.2)
        else e) = room.players := by
      have hfix : ∀ e ∈ room.players,
          (if e.1 = id then
            (e.1, if room.state = .playing ∧ !e.2.spectator
                  then P1.applyFlap t e.2 else e.2)
          else e) = e := by
        intro e _
        have hng : ¬(room.state = P1.RState.playing ∧ e.2.spectator = false) :=
          fun hc => hst hc.1
        by_cases hid : e.1 = id
        · subst hid
          simp [hng]
        · simp [hid]
      calc room.players.map _ = room.players.map (fun e => e) :=
            List.map_congr_left hfix
        _ = room.players := List.map_id' _
    show { room with players := _ } = room
    rw [hmap]

/-- Witness for C7: a flap at `t = 1000` (last accepted flap at `0`) is
accepted and sets `vy := FLAP_VY`; a second flap at `t = 1100` is a
no-op. -/
theorem flap_rate_limited_witness :
    (P1.applyFlap 1000 Ex.flapperP).vy = P1.FLAP_VY ∧
    P1.applyFlap 1100 (P1.applyFlap 1000 Ex.flapperP) =
      P1.applyFlap 1000 Ex.flapperP :=
  ⟨(flap_rate_limited Ex.flapperP 1000 1100 (by decide) (by decide)).1,
   (flap_rate_limited Ex.flapperP 1000 1100 (by decide) (by decide)).2.2.1⟩

/-- Claim C8 (counterexample): in `src/unnamed/part_001` a join with an
empty name is not rejected — the player is created and the name
silently defaults to `"Player"`. -/
theorem join_empty_name_defaults :
    (P1.joinRoom P1.initRoom "p1" "").players.length = 1 ∧
    (P1.joinRoom P1.initRoom "p1" "").players.map (fun e => e.2.name) =
      ["Player"] := by
  constructor
  · rfl
  · rfl

/-- Claim C8 (amended): in the `src/server.js` variant the join handler
rejects a missing, non-string, or empty name with an explicit
`"Invalid player name"` error and creates no player; a non-empty string
name proceeds to `joinRoom`. -/
theorem join_name_validated (room : SJ.Room) (id : String) (v : SJ.JVal)
    (hbad : SJ.truthy v = false ∨ SJ.isStr v = false) :
    SJ.handleJoinMsg room id v = .error "Invalid player name" ∧
    (∀ s : String, s ≠ "" →
      SJ.handleJoinMsg room id (.vstr s) = .ok (SJ.joinRoom room id s)) := by
  constructor
  · unfold SJ.handleJoinMsg
    rcases hbad with h | h <;> simp [h]
  · intro s hs
    unfold SJ.handleJoinMsg
    simp [SJ.truthy, SJ.isStr, SJ.strVal, hs]

/-- Witness for the amended C8: the empty string name is rejected, the
name `"Bo"` is accepted. -/
theorem join_name_validated_witness :
    SJ.handleJoinMsg SJ.initRoom "p1" (.vstr "") =
      .error "Invalid player name" ∧
    SJ.handleJoinMsg SJ.initRoom "p1" (.vstr "Bo") =
      .ok (SJ.joinRoom SJ.initRoom "p1" "Bo") :=
  ⟨(join_name_validated SJ.initRoom "p1" (.vstr "") (Or.inl (by decide))).1,
   (join_name_validated SJ.initRoom "p1" (.vstr "") (Or.inl (by decide))).2
     "Bo" (by decide)⟩

/-- Claim C1 (counterexample): in the `src/server.js` variant, `restart`
from `gameover` with enough ready players calls `startCountdown` without
clearing the course, so the invariant "course non-null iff playing or
gameover" is broken: the room is in `countdown` with a non-null
course. -/
theorem restart_breaks_course_invariant :
    SJ.Inv Ex.gameRoomSJ ∧
    (SJ.restartMsg 9000 Ex.gameRoomSJ).state = .countdown ∧
    (SJ.restartMsg 9000 Ex.gameRoomSJ).course = some Ex.courseSJ ∧
    ¬ SJ.Inv (SJ.restartMsg 9000 Ex.gameRoomSJ) := by
  refine ⟨by simp [SJ.Inv, Ex.gameRoomSJ], rfl, rfl, ?_⟩
  intro hinv
  have hstate : (SJ.restartMsg 9000 Ex.gameRoomSJ).state = .countdown := rfl
  have hcourse : (SJ.restartMsg 9000 Ex.gameRoomSJ).course =
      some Ex.courseSJ := rfl
  rw [SJ.Inv, hstate, hcourse] at hinv
  simp at hinv

/-- Claim C3: the finish branch declares this player the winner exactly
when progress has reached `FINISH_PIPES` and x has reached `finishX`
with no winner yet; one obstacle short, the check changes nothing and
the round continues; and within a tick this check is applied to the
post-pipe-loop player. -/
theorem finish_exact (course : P1.Course) (id : String)
    (w : Option String) (st : P1.RState) (p : P1.Player) :
    (w = none →
      (P1.finishCheck course id w st p = (some id, .gameover) ↔
        (P1.FINISH_PIPES ≤ p.progress ∧ course.finishX ≤ p.x))) ∧
    (p.progress = P1.FINISH_PIPES - 1 →
      P1.finishCheck course id w st p = (w, st)) ∧
    (p.spectator = false →
      P1.groundCrashed (P1.clampTop (P1.movePlayer p)) = false →
      P1.stepPlayer course w st id p =
        ((P1.pipeLoop course course.pipes (P1.clampTop (P1.movePlayer p))).1,
         P1.finishCheck course id w st
           (P1.pipeLoop course course.pipes (P1.clampTop (P1.movePlayer p))).1)) := by
  refine ⟨?_, ?_, ?_⟩
  · intro hw
    subst hw
    unfold P1.finishCheck
    by_cases hc : P1.FINISH_PIPES ≤ p.progress ∧ course.finishX ≤ p.x
    · rw [if_pos ⟨rfl, hc⟩]
      exact iff_of_true rfl hc
    · rw [if_neg (fun hcon => hc hcon.2)]
      refine iff_of_false (fun heq => ?_) hc
      have : (none : Option String) = some id := congrArg Prod.fst heq
      exact Option.noConfusion this
  · intro hp
    unfold P1.finishCheck
    rw [if_neg]
    intro hcon
    have hle := hcon.2.1
    rw [hp] at hle
    revert hle
    unfold P1.FINISH_PIPES
    omega
  · intro hs hg
    unfold P1.stepPlayer
    simp [hs, hg]

/-- Witness for C3: a concrete player past the finish line whose
progress is one short; no winner is declared and the state stays
`playing`. -/
theorem finish_exact_witness :
    Ex.almostP.progress = P1.FINISH_PIPES - 1 ∧
    Ex.courseA.finishX ≤ Ex.almostP.x ∧
    P1.finishCheck Ex.courseA "C" none .playing Ex.almostP =
      (none, .playing) :=
  ⟨rfl, by norm_num [Ex.courseA, Ex.almostP],
   (finish_exact Ex.courseA "C" none .playing Ex.almostP).2.1 rfl⟩

/-- The pipe list of a generated course, in closed form. -/
theorem makeCourse_pipes (r : Nat → ℚ) :
    (P1.makeCourse r).pipes = (List.range P1.FINISH_PIPES).map (fun i =>
      { x := 0 + P1.COURSE_MARGIN_X + (i : ℚ) * P1.PIPE_SPACING
        top := 200 + r i * (P1.VIEW_H - P1.GROUND_H - 200 * 2) - P1.PIPE_GAP / 2
        bottom := 200 + r i * (P1.VIEW_H - P1.GROUND_H - 200 * 2) + P1.PIPE_GAP / 2
        seq := i }) := rfl

/-- The generated course has `FINISH_PIPES` pipes. -/
theorem makeCourse_length (r : Nat → ℚ) :
    (P1.makeCourse r).pipes.length = P1.FINISH_PIPES := by
  rw [makeCourse_pipes]
  simp

/-- Indexing the generated pipe list. -/
theorem makeCourse_getElem (r : Nat → ℚ) (i : Nat)
    (hi : i < (P1.makeCourse r).pipes.length) :
    (P1.makeCourse r).pipes[i] =
      { x := 0 + P1.COURSE_MARGIN_X + (i : ℚ) * P1.PIPE_SPACING
        top := 200 + r i * (P1.VIEW_H - P1.GROUND_H - 200 * 2) - P1.PIPE_GAP / 2
        bottom := 200 + r i * (P1.VIEW_H - P1.GROUND_H - 200 * 2) + P1.PIPE_GAP / 2
        seq := i } := by
  have hi' : i < P1.FINISH_PIPES := by
    rw [makeCourse_length] at hi
    exact hi
  simp [makeCourse_pipes]

/-- The generated finish line sits `FINISH_PAD_X` after the last pipe. -/
theorem makeCourse_finishX (r : Nat → ℚ) :
    (P1.makeCourse r).finishX =
      (0 + P1.COURSE_MARGIN_X + ((14 : Nat) : ℚ) * P1.PIPE_SPACING) +
        P1.FINISH_PAD_X := rfl

/-- Every generated pipe sits at or beyond the course margin. -/
theorem makeCourse_x_lower (r : Nat → ℚ) :
    ∀ pipe ∈ (P1.makeCourse r).pipes, P1.COURSE_MARGIN_X ≤ pipe.x := by
  rw [makeCourse_pipes]
  intro pipe hmem
  obtain ⟨i, _, rfl⟩ := List.mem_map.mp hmem
  show P1.COURSE_MARGIN_X ≤ 0 + P1.COURSE_MARGIN_X + (i : ℚ) * P1.PIPE_SPACING
  have h0 : (0 : ℚ) ≤ (i : ℚ) := Nat.cast_nonneg i
  unfold P1.COURSE_MARGIN_X P1.PIPE_SPACING
  nlinarith

/-- Claim C9: the generated course has exactly `FINISH_PIPES` pipes with
0-based `seq` equal to the index, strictly increasing x, constant gap
height `PIPE_GAP`, gaps strictly inside the playable band above the
ground band, and a finish line strictly beyond every pipe's trailing
edge. -/
theorem makeCourse_wf (r : Nat → ℚ) (hr : ∀ i, 0 ≤ r i ∧ r i < 1) :
    (P1.makeCourse r).pipes.length = P1.FINISH_PIPES ∧
    (∀ (i : Nat) (hi : i < (P1.makeCourse r).pipes.length),
      ((P1.makeCourse r).pipes[i]).seq = i) ∧
    (∀ (i j : Nat) (hi : i < (P1.makeCourse r).pipes.length)
        (hj : j < (P1.makeCourse r).pipes.length), i < j →
      ((P1.makeCourse r).pipes[i]).x < ((P1.makeCourse r).pipes[j]).x) ∧
    (∀ pipe ∈ (P1.makeCourse r).pipes,
      pipe.bottom - pipe.top = P1.PIPE_GAP) ∧
    (∀ pipe ∈ (P1.makeCourse r).pipes,
      0 < pipe.top ∧ pipe.bottom < P1.VIEW_H - P1.GROUND_H) ∧
    (∀ pipe ∈ (P1.makeCourse r).pipes,
      pipe.x + P1.PIPE_HALF_W < (P1.makeCourse r).finishX) := by
  refine ⟨makeCourse_length r, ?_, ?_, ?_, ?_, ?_⟩
  · intro i hi
    rw [makeCourse_getElem r i hi]
  · intro i j hi hj hij
    rw [makeCourse_getElem r i hi, makeCourse_getElem r j hj]
    show 0 + P1.COURSE_MARGIN_X + (i : ℚ) * P1.PIPE_SPACING <
      0 + P1.COURSE_MARGIN_X + (j : ℚ) * P1.PIPE_SPACING
    have hc : (i : ℚ) < (j : ℚ) := by exact_mod_cast hij
    unfold P1.COURSE_MARGIN_X P1.PIPE_SPACING
    nlinarith
  · intro pipe hmem
    rw [makeCourse_pipes] at hmem
    obtain ⟨i, _, rfl⟩ := List.mem_map.mp hmem
    show (200 + r i * (P1.VIEW_H - P1.GROUND_H - 200 * 2) + P1.PIPE_GAP / 2) -
      (200 + r i * (P1.VIEW_H - P1.GROUND_H - 200 * 2) - P1.PIPE_GAP / 2) =
      P1.PIPE_GAP
    ring
  · intro pipe hmem
    rw [makeCourse_pipes] at hmem
    obtain ⟨i, _, rfl⟩ := List.mem_map.mp hmem
    obtain ⟨h0, h1⟩ := hr i
    constructor
    · show 0 < 200 + r i * (P1.VIEW_H - P1.GROUND_H - 200 * 2) - P1.PIPE_GAP / 2
      unfold P1.VIEW_H P1.GROUND_H P1.PIPE_GAP
      nlinarith
    · show 200 + r i * (P1.VIEW_H - P1.GROUND_H - 200 * 2) + P1.PIPE_GAP / 2 <
        P1.VIEW_H - P1.GROUND_H
      unfold P1.VIEW_H P1.GROUND_H P1.PIPE_GAP
      nlinarith
  · intro pipe hmem
    rw [makeCourse_pipes] at hmem
    obtain ⟨i, hirange, rfl⟩ := List.mem_map.mp hmem
    have hi15 : i < P1.FINISH_PIPES := List.mem_range.mp hirange
    rw [makeCourse_finishX]
    show 0 + P1.COURSE_MARGIN_X + (i : ℚ) * P1.PIPE_SPACING + P1.PIPE_HALF_W <
      0 + P1.COURSE_MARGIN_X + ((14 : Nat) : ℚ) * P1.PIPE_SPACING +
        P1.FINISH_PAD_X
    have hc : (i : ℚ) ≤ ((14 : Nat) : ℚ) := by
      have : i ≤ 14 := by
        revert hi15
        unfold P1.FINISH_PIPES
        omega
      exact_mod_cast this
    unfold P1.COURSE_MARGIN_X P1.PIPE_SPACING P1.PIPE_HALF_W P1.FINISH_PAD_X
    push_cast at hc ⊢
    nlinarith

/-- Witness for C9 at the constant-half random stream. -/
theorem makeCourse_wf_witness :
    (P1.makeCourse Ex.halfStream).pipes.length = P1.FINISH_PIPES :=
  (makeCourse_wf Ex.halfStream
    (fun i => ⟨by norm_num [Ex.halfStream], by norm_num [Ex.halfStream]⟩)).1

/-- The generated course starts at the world origin. -/
theorem makeCourse_startX (r : Nat → ℚ) : (P1.makeCourse r).startX = 0 := rfl

/-- If no pipe's trailing edge is behind the player, the pipe loop
either keeps the progress (no crash, no score) or zeroes it (crash). -/
theorem pipeLoop_progress_cases (c : P1.Course) :
    ∀ (pipes : List P1.Pipe) (p : P1.Player),
      (∀ pipe ∈ pipes, ¬(pipe.x + P1.PIPE_HALF_W < p.x)) →
      ((P1.pipeLoop c pipes p).1.progress = p.progress ∨
       (P1.pipeLoop c pipes p).1.progress = 0) := by
  intro pipes
  induction pipes with
  | nil => intro p _; left; rfl
  | cons q rest ih =>
    intro p hnp
    by_cases hcol : P1.collide p q = true
    · simp only [P1.pipeLoop, hcol, if_true]
      right
      rfl
    · simp only [P1.pipeLoop, hcol, if_false, Bool.false_eq_true]
      have hq : P1.scorePipe q p = p := by
        unfold P1.scorePipe
        rw [if_neg (fun hc => hnp q (List.mem_cons_self q rest) hc.2)]
      rw [hq]
      exact ih p (fun pipe hmem => hnp pipe (List.mem_cons_of_mem q hmem))

/-- A player standing at the round start with zero progress cannot win
in this tick: the step leaves the winner and the state untouched. -/
theorem stepPlayer_at_start (r : Nat → ℚ) (w : Option String)
    (id : String) (p : P1.Player)
    (hx : p.x = (P1.makeCourse r).startX + 80) (hp : p.progress = 0) :
    (P1.stepPlayer (P1.makeCourse r) w .playing id p).2 = (w, .playing) := by
  unfold P1.stepPlayer
  by_cases hs : p.spectator
  · simp [hs]
  · simp only [hs, if_false, Bool.false_eq_true]
    by_cases hg : P1.groundCrashed (P1.clampTop (P1.movePlayer p)) = true
    · simp [hg]
    · simp only [hg, if_false, Bool.false_eq_true]
      have hx1 : (P1.clampTop (P1.movePlayer p)).x = p.x + P1.RUN_SPEED := by
        unfold P1.clampTop P1.movePlayer
        by_cases hy : p.y + (p.vy + P1.GRAVITY) < P1.BIRD_RADIUS <;> simp [hy]
      have hp1 : (P1.clampTop (P1.movePlayer p)).progress = 0 := by
        unfold P1.clampTop P1.movePlayer
        by_cases hy : p.y + (p.vy + P1.GRAVITY) < P1.BIRD_RADIUS <;> simp [hy, hp]
      have hnp : ∀ pipe ∈ (P1.makeCourse r).pipes,
          ¬(pipe.x + P1.PIPE_HALF_W < (P1.clampTop (P1.movePlayer p)).x) := by
        intro pipe hmem hlt
        have hxl := makeCourse_x_lower r pipe hmem
        rw [hx1, hx, makeCourse_startX] at hlt
        revert hlt hxl
        unfold P1.PIPE_HALF_W P1.COURSE_MARGIN_X P1.RUN_SPEED
        intro hxl hlt
        nlinarith
      have hcase := pipeLoop_progress_cases (P1.makeCourse r)
        (P1.makeCourse r).pipes (P1.clampTop (P1.movePlayer p)) hnp
      have hlow : (P1.pipeLoop (P1.makeCourse r) (P1.makeCourse r).pipes
          (P1.clampTop (P1.movePlayer p))).1.progress = 0 := by
        rcases hcase with h | h
        · rw [h, hp1]
        · exact h
      unfold P1.finishCheck
      rw [if_neg]
      intro hcon
      have := hcon.2.1
      rw [hlow] at this
      revert this
      unfold P1.FINISH_PIPES
      omega

/-- A whole player map standing at the round start with zero progress
leaves the winner and state untouched. -/
theorem stepPlayers_at_start (r : Nat → ℚ) :
    ∀ (ps : List (String × P1.Player)) (w : Option String),
      (∀ e ∈ ps, e.2.x = (P1.makeCourse r).startX + 80 ∧ e.2.progress = 0) →
      (P1.stepPlayers (P1.makeCourse r) ps w .playing).2 = (w, .playing) := by
  intro ps
  induction ps with
  | nil => intro w _; rfl
  | cons e rest ih =>
    intro w hall
    obtain ⟨hx, hp⟩ := hall e (List.mem_cons_self e rest)
    have hone := stepPlayer_at_start r w e.1 e.2 hx hp
    simp only [P1.stepPlayers, hone]
    exact ih w (fun e' he' => hall e' (List.mem_cons_of_mem e he'))

/-- Claim C10: once in `countdown`, reaching the wall-clock deadline
starts the round unconditionally — for every room, regardless of
readiness flags or eligible-player count, the tick moves the room to
`playing`; the deadline was fixed at `startCountdown` time. -/
theorem countdown_unconditional (room : P1.Room) (now : Nat) (r : Nat → ℚ)
    (hst : room.state = .countdown)
    (hexp : P1.countdownExpired now room = true) :
    (P1.stepRoom now r room).state = .playing ∧
    (P1.startCountdown now room).countdownEndsAt =
      some (now + P1.COUNTDOWN_SECONDS * 1000) := by
  refine ⟨?_, rfl⟩
  have h1 : ¬(room.state = P1.RState.lobby ∧ P1.canStartCountdown room = true) := by
    rw [hst]
    rintro ⟨hcon, -⟩
    exact P1.RState.noConfusion hcon
  have h2 : room.state = P1.RState.countdown ∧
      P1.countdownExpired now room = true := ⟨hst, hexp⟩
  have h3 : ¬((P1.startPlaying r room).state ≠ P1.RState.playing) :=
    fun hne => hne rfl
  show (P1.stepRoom now r room).state = P1.RState.playing
  simp only [P1.stepRoom]
  rw [if_neg h1, if_pos h2, if_neg h3]
  have hplayers : ∀ e ∈ (P1.startPlaying r room).players,
      e.2.x = (P1.makeCourse r).startX + 80 ∧ e.2.progress = 0 := by
    intro e he
    simp only [P1.startPlaying, List.mem_map] at he
    obtain ⟨a, _, rfl⟩ := he
    constructor
    · show (P1.resetPlayerForRound (P1.makeCourse r) true a.2).x = _
      unfold P1.resetPlayerForRound
      simp
    · show (P1.resetPlayerForRound (P1.makeCourse r) true a.2).progress = 0
      unfold P1.resetPlayerForRound
      simp
  have hstep := stepPlayers_at_start r (P1.startPlaying r room).players
    (P1.startPlaying r room).winnerId hplayers
  have hcourse : (P1.startPlaying r room).course = some (P1.makeCourse r) := rfl
  have hwin : (P1.startPlaying r room).winnerId = none := rfl
  have hsst : (P1.startPlaying r room).state = .playing := rfl
  rw [hcourse]
  show (P1.stepPlayers (P1.makeCourse r) (P1.startPlaying r room).players
    (P1.startPlaying r room).winnerId (P1.startPlaying r room).state).2.2 =
    P1.RState.playing
  rw [hsst] at *
  rw [hstep]

/-- Witness for C10: a countdown room whose only player has un-readied
(`canStartCountdown` is false) still enters `playing` when the deadline
has passed. -/
theorem countdown_unconditional_witness :
    (P1.stepRoom 6000 Ex.halfStream Ex.countdownRoomP1).state = .playing ∧
    P1.canStartCountdown Ex.countdownRoomP1 = false :=
  ⟨(countdown_unconditional Ex.countdownRoomP1 6000 Ex.halfStream rfl rfl).1,
   rfl⟩

/-- Unfolding `passedSeqs` over a cons cell. -/
theorem passedSeqs_cons (p : P1.Player) (q : P1.Pipe) (pipes : List P1.Pipe) :
    passedSeqs p (q :: pipes) =
      if q.x + P1.PIPE_HALF_W < p.x then insert q.seq (passedSeqs p pipes)
      else passedSeqs p pipes := by
  unfold passedSeqs
  by_cases h : q.x + P1.PIPE_HALF_W < p.x
  · simp [List.filter_cons, h]
  · simp [List.filter_cons, h]

/-- `passedSeqs` only depends on the player's x. -/
theorem passedSeqs_congr (p p' : P1.Player) (hx : p'.x = p.x)
    (pipes : List P1.Pipe) : passedSeqs p' pipes = passedSeqs p pipes := by
  unfold passedSeqs
  rw [hx]

/-- Scoring does not move the player. -/
theorem scorePipe_x (q : P1.Pipe) (p : P1.Player) :
    (P1.scorePipe q p).x = p.x := by
  unfold P1.scorePipe
  split <;> rfl

/-- Scoring does not move the player vertically. -/
theorem scorePipe_y (q : P1.Pipe) (p : P1.Player) :
    (P1.scorePipe q p).y = p.y := by
  unfold P1.scorePipe
  split <;> rfl

/-- The collision test only reads the player's position. -/
theorem collide_congr (p p' : P1.Player) (q : P1.Pipe)
    (hx : p'.x = p.x) (hy : p'.y = p.y) :
    P1.collide p' q = P1.collide p q := by
  unfold P1.collide
  rw [hx, hy]

/-- Characterization of a collision-free pass through the pipe loop: no
crash flag, the scored-set grows by exactly the passed unscored
sequence numbers, progress grows by the number of newly scored pipes,
and the position is untouched. -/
theorem pipeLoop_char (c : P1.Course) :
    ∀ (pipes : List P1.Pipe) (p : P1.Player),
      (∀ q ∈ pipes, P1.collide p q = false) →
      (P1.pipeLoop c pipes p).2 = false ∧
      (P1.pipeLoop c pipes p).1.scored = p.scored ∪ passedSeqs p pipes ∧
      (P1.pipeLoop c pipes p).1.progress =
        p.progress + ((p.scored ∪ passedSeqs p pipes).card - p.scored.card) ∧
      (P1.pipeLoop c pipes p).1.x = p.x ∧
      (P1.pipeLoop c pipes p).1.y = p.y := by
  intro pipes
  induction pipes with
  | nil =>
    intro p _
    refine ⟨rfl, ?_, ?_, rfl, rfl⟩
    · show p.scored = p.scored ∪ passedSeqs p []
      simp [passedSeqs]
    · show p.progress = p.progress + ((p.scored ∪ passedSeqs p []).card - p.scored.card)
      simp [passedSeqs]
  | cons q rest ih =>
    intro p hnc
    have hcol : P1.collide p q = false := hnc q (List.mem_cons_self q rest)
    have hstep : P1.pipeLoop c (q :: rest) p =
        P1.pipeLoop c rest (P1.scorePipe q p) := by
      simp [P1.pipeLoop, hcol]
    have hx' : (P1.scorePipe q p).x = p.x := scorePipe_x q p
    have hy' : (P1.scorePipe q p).y = p.y := scorePipe_y q p
    have hnc' : ∀ q' ∈ rest, P1.collide (P1.scorePipe q p) q' = false := by
      intro q' hq'
      rw [collide_congr p (P1.scorePipe q p) q' hx' hy']
      exact hnc q' (List.mem_cons_of_mem q hq')
    obtain ⟨ih2, ihs, ihp, ihx, ihy⟩ := ih (P1.scorePipe q p) hnc'
    have hpass : passedSeqs (P1.scorePipe q p) rest = passedSeqs p rest :=
      passedSeqs_congr p (P1.scorePipe q p) hx' rest
    by_cases hsc : q.seq ∉ p.scored ∧ q.x + P1.PIPE_HALF_W < p.x
    · have hp' : P1.scorePipe q p =
          { p with scored := insert q.seq p.scored,
                   progress := p.progress + 1 } := by
        unfold P1.scorePipe
        rw [if_pos hsc]
      have hpassc : passedSeqs p (q :: rest) =
          insert q.seq (passedSeqs p rest) := by
        rw [passedSeqs_cons, if_pos hsc.2]
      rw [hstep]
      refine ⟨ih2, ?_, ?_, by rw [ihx, hx'], by rw [ihy, hy']⟩
      · rw [ihs, hpass, hpassc, hp']
        show insert q.seq p.scored ∪ passedSeqs p rest =
          p.scored ∪ insert q.seq (passedSeqs p rest)
        rw [Finset.insert_union, Finset.union_insert]
      · rw [ihp, hpass, hpassc, hp']
        show p.progress + 1 +
            ((insert q.seq p.scored ∪ passedSeqs p rest).card -
              (insert q.seq p.scored).card) =
          p.progress +
            ((p.scored ∪ insert q.seq (passedSeqs p rest)).card -
              p.scored.card)
        rw [Finset.insert_union, Finset.union_insert]
        have hcard1 : (insert q.seq p.scored).card = p.scored.card + 1 :=
          Finset.card_insert_of_not_mem hsc.1
        have hsub : insert q.seq p.scored ⊆
            insert q.seq (p.scored ∪ passedSeqs p rest) :=
          Finset.insert_subset_insert q.seq Finset.subset_union_left
        have hle := Finset.card_le_card hsub
        rw [hcard1] at hle ⊢
        omega
    · have hp' : P1.scorePipe q p = p := by
        unfold P1.scorePipe
        rw [if_neg hsc]
      rw [hp'] at hstep ih2 ihs ihp ihx ihy hpass
      rw [hstep]
      by_cases hpx : q.x + P1.PIPE_HALF_W < p.x
      · have hmem : q.seq ∈ p.scored := by
          by_contra hnm
          exact hsc ⟨hnm, hpx⟩
        have hunion : p.scored ∪ passedSeqs p (q :: rest) =
            p.scored ∪ passedSeqs p rest := by
          rw [passedSeqs_cons, if_pos hpx, Finset.union_insert,
            Finset.insert_eq_self.mpr (Finset.mem_union_left _ hmem)]
        exact ⟨ih2, by rw [ihs, hunion], by rw [ihp, hunion], ihx, ihy⟩
      · have hunion : passedSeqs p (q :: rest) = passedSeqs p rest := by
          rw [passedSeqs_cons, if_neg hpx]
        exact ⟨ih2, by rw [ihs, hunion], by rw [ihp, hunion], ihx, ihy⟩

/-- Claim C5: on a collision-free tick the pipe loop scores exactly the
pipes whose trailing edge the player's x has passed and whose `seq` is
not yet in the scored-set — each adds its `seq` and exactly one unit of
progress; a pipe whose `seq` is already recorded adds nothing, so
scoring is idempotent per (player, pipe) for the rest of the round. -/
theorem scoring_idempotent (course : P1.Course) (pipes : List P1.Pipe)
    (p : P1.Player) (hnc : ∀ q ∈ pipes, P1.collide p q = false) :
    (P1.pipeLoop course pipes p).2 = false ∧
    (P1.pipeLoop course pipes p).1.scored = p.scored ∪ passedSeqs p pipes ∧
    (P1.pipeLoop course pipes p).1.progress =
      p.progress + ((p.scored ∪ passedSeqs p pipes).card - p.scored.card) ∧
    (∀ q ∈ pipes, q.x + P1.PIPE_HALF_W < p.x →
      q.seq ∈ (P1.pipeLoop course pipes p).1.scored) ∧
    ((∀ q ∈ pipes, q.seq ∈ p.scored) →
      (P1.pipeLoop course pipes p).1.progress = p.progress) := by
  obtain ⟨h2, hs, hp, hx, hy⟩ := pipeLoop_char course pipes p hnc
  refine ⟨h2, hs, hp, ?_, ?_⟩
  · intro q hq hqx
    rw [hs]
    apply Finset.mem_union_right
    unfold passedSeqs
    rw [List.mem_toFinset]
    exact List.mem_map.mpr ⟨q, List.mem_filter.mpr ⟨hq, by simp [hqx]⟩, rfl⟩
  · intro hall
    have hsub : passedSeqs p pipes ⊆ p.scored := by
      intro s hsmem
      unfold passedSeqs at hsmem
      rw [List.mem_toFinset] at hsmem
      obtain ⟨q', hq', rfl⟩ := List.mem_map.mp hsmem
      exact hall q' (List.mem_filter.mp hq').1
    rw [hp, Finset.union_eq_left.mpr hsub]
    simp

/-- Witness for C5: a runner just past pipe `0`'s trailing edge on a
two-pipe course scores it — its `seq` enters the scored-set and the
progress formula evaluates concretely. -/
theorem scoring_idempotent_witness :
    Ex.pipeA.seq ∈
      (P1.pipeLoop Ex.courseB [Ex.pipeA, Ex.pipeB] Ex.runnerB).1.scored ∧
    (P1.pipeLoop Ex.courseB [Ex.pipeA, Ex.pipeB] Ex.runnerB).1.scored =
      Ex.runnerB.scored ∪ passedSeqs Ex.runnerB [Ex.pipeA, Ex.pipeB] := by
  have hnc : ∀ q ∈ [Ex.pipeA, Ex.pipeB], P1.collide Ex.runnerB q = false := by
    intro q hq
    simp only [List.mem_cons, List.not_mem_nil, or_false] at hq
    rcases hq with rfl | rfl
    · simp only [P1.collide, Ex.runnerB, Ex.pipeA, P1.PIPE_HALF_W,
        P1.BIRD_RADIUS, Bool.and_eq_false_iff, Bool.or_eq_false_iff,
        decide_eq_false_iff_not]
      norm_num
    · simp only [P1.collide, Ex.runnerB, Ex.pipeB, P1.PIPE_HALF_W,
        P1.BIRD_RADIUS, Bool.and_eq_false_iff, Bool.or_eq_false_iff,
        decide_eq_false_iff_not]
      norm_num
  have hax : Ex.pipeA.x + P1.PIPE_HALF_W < Ex.runnerB.x := by
    show (600 : ℚ) + 40 < 700
    norm_num
  exact
    ⟨(scoring_idempotent Ex.courseB [Ex.pipeA, Ex.pipeB] Ex.runnerB hnc).2.2.2.1
      Ex.pipeA (by simp) hax,
     (scoring_idempotent Ex.courseB [Ex.pipeA, Ex.pipeB] Ex.runnerB hnc).2.1⟩

/-- A freshly started countdown has not expired at the instant it is
started. -/
theorem countdownExpired_startCountdown (now : Nat) (room : P1.Room) :
    P1.countdownExpired now (P1.startCountdown now room) = false := by
  simp only [P1.countdownExpired, P1.startCountdown,
    decide_eq_false_iff_not]
  unfold P1.COUNTDOWN_SECONDS
  omega

/-- The invariant holds of any playing-loop result room with a course
present and an end state of `playing` or `gameover`. -/
theorem inv_of_state_or (c : P1.Course) (ps : List (String × P1.Player))
    (w : Option String) (cd : Option Nat) (st : P1.RState)
    (hst2 : st = P1.RState.playing ∨ st = P1.RState.gameover) :
    P1.Inv { state := st, course := some c, players := ps,
             countdownEndsAt := cd, winnerId := w } := by
  unfold P1.Inv
  rcases hst2 with hq | hq <;> simp [hq]

/-- `stepRoom` preserves the course/state invariant. -/
theorem stepRoom_preserves_inv (room : P1.Room) (now : Nat) (r : Nat → ℚ)
    (h : P1.Inv room) : P1.Inv (P1.stepRoom now r room) := by
  cases hst : room.state with
  | lobby =>
    have hcourse : room.course = none := by
      by_contra hne
      rcases h.mp hne with hx | hx <;> rw [hst] at hx <;>
        exact P1.RState.noConfusion hx
    by_cases hcs : P1.canStartCountdown room = true
    · have h1 : room.state = P1.RState.lobby ∧
          P1.canStartCountdown room = true := ⟨hst, hcs⟩
      have h2 : ¬((P1.startCountdown now room).state = P1.RState.countdown ∧
          P1.countdownExpired now (P1.startCountdown now room) = true) := by
        rintro ⟨-, hexp⟩
        rw [countdownExpired_startCountdown] at hexp
        exact Bool.noConfusion hexp
      have h3 : (P1.startCountdown now room).state ≠ P1.RState.playing :=
        fun hx => P1.RState.noConfusion hx
      simp only [P1.stepRoom]
      rw [if_pos h1, if_neg h2, if_pos h3]
      unfold P1.Inv
      rw [show (P1.startCountdown now room).course = room.course from rfl,
        hcourse,
        show (P1.startCountdown now room).state = P1.RState.countdown from rfl]
      simp
    · have h1 : ¬(room.state = P1.RState.lobby ∧
          P1.canStartCountdown room = true) := fun hc => hcs hc.2
      have h2 : ¬(room.state = P1.RState.countdown ∧
          P1.countdownExpired now room = true) := by
        rintro ⟨hx, -⟩
        rw [hst] at hx
        exact P1.RState.noConfusion hx
      have h3 : room.state ≠ P1.RState.playing := by
        rw [hst]
        exact fun hx => P1.RState.noConfusion hx
      simp only [P1.stepRoom]
      rw [if_neg h1, if_neg h2, if_pos h3]
      exact h
  | countdown =>
    have hcourse : room.course = none := by
      by_contra hne
      rcases h.mp hne with hx | hx <;> rw [hst] at hx <;>
        exact P1.RState.noConfusion hx
    have h1 : ¬(room.state = P1.RState.lobby ∧
        P1.canStartCountdown room = true) := by
      rintro ⟨hx, -⟩
      rw [hst] at hx
      exact P1.RState.noConfusion hx
    by_cases hexp : P1.countdownExpired now room = true
    · have h2 : room.state = P1.RState.countdown ∧
          P1.countdownExpired now room = true := ⟨hst, hexp⟩
      have h3 : ¬((P1.startPlaying r room).state ≠ P1.RState.playing) :=
        fun hne => hne rfl
      simp only [P1.stepRoom]
      rw [if_neg h1, if_pos h2, if_neg h3]
      show P1.Inv
        { state := (P1.stepPlayers (P1.makeCourse r)
            (P1.startPlaying r room).players
            (P1.startPlaying r room).winnerId
            (P1.startPlaying r room).state).2.2
          course := (P1.startPlaying r room).course
          players := (P1.stepPlayers (P1.makeCourse r)
            (P1.startPlaying r room).players
            (P1.startPlaying r room).winnerId
            (P1.startPlaying r room).state).1
          countdownEndsAt := (P1.startPlaying r room).countdownEndsAt
          winnerId := (P1.stepPlayers (P1.makeCourse r)
            (P1.startPlaying r room).players
            (P1.startPlaying r room).winnerId
            (P1.startPlaying r room).state).2.1 }
      rw [show (P1.startPlaying r room).course = some (P1.makeCourse r)
          from rfl,
        show (P1.startPlaying r room).state = P1.RState.playing from rfl]
      exact inv_of_state_or (P1.makeCourse r) _ _ _ _
        (stepPlayers_state_or (P1.makeCourse r)
          (P1.startPlaying r room).players
          (P1.startPlaying r room).winnerId P1.RState.playing)
    · have h2 : ¬(room.state = P1.RState.countdown ∧
          P1.countdownExpired now room = true) := fun hc => hexp hc.2
      have h3 : room.state ≠ P1.RState.playing := by
        rw [hst]
        exact fun hx => P1.RState.noConfusion hx
      simp only [P1.stepRoom]
      rw [if_neg h1, if_neg h2, if_pos h3]
      exact h
  | playing =>
    obtain ⟨c, hc⟩ : ∃ c, room.course = some c := by
      have hne : room.course ≠ none := h.mpr (Or.inl hst)
      cases hcc : room.course with
      | none => exact absurd hcc hne
      | some c => exact ⟨c, rfl⟩
    have h1 : ¬(room.state = P1.RState.lobby ∧
        P1.canStartCountdown room = true) := by
      rintro ⟨hx, -⟩
      rw [hst] at hx
      exact P1.RState.noConfusion hx
    have h2 : ¬(room.state = P1.RState.countdown ∧
        P1.countdownExpired now room = true) := by
      rintro ⟨hx, -⟩
      rw [hst] at hx
      exact P1.RState.noConfusion hx
    have h3 : ¬(room.state ≠ P1.RState.playing) := fun hne => hne hst
    simp only [P1.stepRoom]
    rw [if_neg h1, if_neg h2, if_neg h3, hc, hst]
    exact inv_of_state_or c _ _ _ _
      (stepPlayers_state_or c room.players room.winnerId P1.RState.playing)
  | gameover =>
    have h1 : ¬(room.state = P1.RState.lobby ∧
        P1.canStartCountdown room = true) := by
      rintro ⟨hx, -⟩
      rw [hst] at hx
      exact P1.RState.noConfusion hx
    have h2 : ¬(room.state = P1.RState.countdown ∧
        P1.countdownExpired now room = true) := by
      rintro ⟨hx, -⟩
      rw [hst] at hx
      exact P1.RState.noConfusion hx
    have h3 : room.state ≠ P1.RState.playing := by
      rw [hst]
      exact fun hx => P1.RState.noConfusion hx
    simp only [P1.stepRoom]
    rw [if_neg h1, if_neg h2, if_pos h3]
    exact h

/-- Claim C1 (amended): in the `part_001` variant every operation — room
creation, join, leave, ready, flap, restart, the game-over timer and the
physics tick — preserves the invariant that `course` is non-null iff the
state is `playing` or `gameover`.  (In the `src/server.js` variant the
restart handler breaks it: see the counterexample.) -/
theorem course_state_invariant (room : P1.Room) (jid jname pid : String)
    (b : Bool) (now : Nat) (r : Nat → ℚ) (h : P1.Inv room) :
    P1.Inv P1.initRoom ∧
    P1.Inv (P1.joinRoom room jid jname) ∧
    P1.Inv (P1.removePlayer room pid) ∧
    P1.Inv (P1.readyMsg room pid b) ∧
    P1.Inv (P1.flapMsg room pid now) ∧
    P1.Inv (P1.restartMsg room) ∧
    P1.Inv (P1.timerCallback room) ∧
    P1.Inv (P1.stepRoom now r room) := by
  refine ⟨?_, ?_, ?_, ?_, ?_, ?_, ?_, stepRoom_preserves_inv room now r h⟩
  · simp [P1.Inv, P1.initRoom]
  · exact h
  · exact h
  · exact h
  · exact h
  · simp [P1.Inv, P1.restartMsg, P1.resetToLobby]
  · simp [P1.Inv, P1.timerCallback, P1.resetToLobby]

/-- Witness for the amended C1 at a concrete invariant-satisfying
room. -/
theorem course_state_invariant_witness :
    P1.Inv (P1.stepRoom 0 Ex.halfStream P1.initRoom) ∧
    P1.Inv (P1.joinRoom P1.initRoom "A" "Ann") :=
  ⟨(course_state_invariant P1.initRoom "A" "Ann" "A" true 0 Ex.halfStream
      (by simp [P1.Inv, P1.initRoom])).2.2.2.2.2.2.2,
   (course_state_invariant P1.initRoom "A" "Ann" "A" true 0 Ex.halfStream
      (by simp [P1.Inv, P1.initRoom])).2.1⟩
